import Mathlib

/-!
Verification of the `BangumiDatabase` module (`src/module/database/bangumi.py`)
of the Auto_Bangumi repository.

Python strings are embedded as `List Char`; Python's `str.split`, `str.join`,
`in` (substring test) and `list.remove` are given explicit executable
definitions mirroring CPython semantics.  The bangumi table is a list of rows;
each database method becomes a pure state-passing function.
-/

namespace AutoBangumi

/-- Embedded Python string: a list of characters. -/
abbrev Str := List Char

/-- Helper for the Python substring test: `leadEq n h` is true when `n` is a
leading segment of `h`. -/
def leadEq : Str → Str → Bool
  | [], _ => true
  | _ :: _, [] => false
  | a :: as, b :: bs => (a == b) && leadEq as bs

/-- Python `needle in hay` on strings: contiguous-substring containment. -/
def pyInStr (needle : Str) : Str → Bool
  | [] => leadEq needle []
  | a :: t => leadEq needle (a :: t) || pyInStr needle t

/-- Python `s.split(sep)` for a one-character separator `c`:
`"".split(",") = [""]`, `"a,b".split(",") = ["a", "b"]`. -/
def pySplit (c : Char) : Str → List Str
  | [] => [[]]
  | a :: l =>
    let r := pySplit c l
    if a = c then [] :: r
    else
      match r with
      | [] => [[a]]
      | y :: ys => (a :: y) :: ys

/-- Python `sep.join(xs)` for a one-character separator `c`. -/
def pyJoin (c : Char) : List Str → Str
  | [] => []
  | [x] => x
  | x :: y :: ys => x ++ c :: pyJoin c (y :: ys)

/-- Python `lst.remove(x)`: delete the first occurrence of the value `x`
(no-op here when absent; the callers below only remove present values). -/
def pyRemove (x : Str) : List Str → List Str
  | [] => []
  | y :: ys => if y = x then ys else y :: pyRemove x ys

/-- Modelled from the spec: the `BangumiData` record type lives in
`module.models`, which is not part of the analysed sources; its fields and
their types are taken from §3 of the specification (`id`, `season`, `year`,
`offset` integers; `added`, `eps_collect` booleans; `filter`, `rss_link`
ordered string sequences; `official_title`, `title_raw` strings). -/
structure BangumiData where
  id : Int
  official_title : Str
  title_raw : Str
  season : Int
  year : Int
  offset : Int
  added : Bool
  eps_collect : Bool
  filter : List Str
  rss_link : List Str
deriving DecidableEq

/-- A row of the `bangumi` table, one column per `BangumiData` field, with the
storage types produced by `BangumiDatabase.__data_to_db` (booleans as
integers, sequences as joined text). -/
structure DbRow where
  id : Int
  official_title : Str
  title_raw : Str
  season : Int
  year : Int
  offset : Int
  added : Int
  eps_collect : Int
  filter : Str
  rss_link : Str
deriving DecidableEq

/-- Embeds `BangumiDatabase.__data_to_db`: booleans become `0`/`1`, string sequences
become comma-joined text, everything else passes through. -/
def data_to_db (d : BangumiData) : DbRow where
  id := d.id
  official_title := d.official_title
  title_raw := d.title_raw
  season := d.season
  year := d.year
  offset := d.offset
  added := if d.added then 1 else 0
  eps_collect := if d.eps_collect then 1 else 0
  filter := pyJoin ',' d.filter
  rss_link := pyJoin ',' d.rss_link

/-- Embeds `BangumiDatabase.__db_to_data`: integer columns are reinterpreted as
booleans (`bool(item)`, i.e. `≠ 0`) unless the field name is one of
`id`, `offset`, `season`, `year`; the `filter` and `rss_link` columns are
split on commas. -/
def db_to_data (r : DbRow) : BangumiData where
  id := r.id
  official_title := r.official_title
  title_raw := r.title_raw
  season := r.season
  year := r.year
  offset := r.offset
  added := r.added != 0
  eps_collect := r.eps_collect != 0
  filter := pySplit ',' r.filter
  rss_link := pySplit ',' r.rss_link

/-- The `bangumi` table: one `DbRow` per stored series, in insertion order. -/
abbrev Table := List DbRow

/-- Embeds `BangumiDatabase.update_rss`: `UPDATE bangumi SET rss_link = :rss_link,
added = 0 WHERE title_raw = :title_raw`. -/
def update_rss (title_raw rss_set : Str) (t : Table) : Table :=
  t.map fun r =>
    if r.title_raw = title_raw then { r with rss_link := rss_set, added := 0 } else r

/-- Embeds `BangumiDatabase.update`: `UPDATE` of every column except `id`, keyed by
`id`; the boolean result is `cursor.rowcount == 1` (SQLite counts every row
matched by the `WHERE` clause). -/
def update (d : BangumiData) (t : Table) : Table × Bool :=
  let db := data_to_db d
  (t.map fun r => if r.id = db.id then { db with id := r.id } else r,
    t.countP (fun r => decide (r.id = db.id)) == 1)

/-- Embeds `BangumiDatabase.search_id`: `SELECT * FROM bangumi WHERE id = :id`,
`fetchone`, decoded; `None` when no row matches. -/
def search_id (i : Int) (t : Table) : Option BangumiData :=
  (t.find? fun r => decide (r.id = i)).map db_to_data

/-- The result of `SELECT id FROM bangumi ORDER BY id DESC LIMIT 1`: the
maximum stored id, or `none` on an empty table. -/
def max_id : Table → Option Int
  | [] => none
  | r :: rs =>
    match max_id rs with
    | none => some r.id
    | some m => some (max r.id m)

/-- Embeds `BangumiDatabase.gen_id`: `1` on an empty table, otherwise the largest
stored id plus one. -/
def gen_id (t : Table) : Int :=
  match max_id t with
  | none => 1
  | some m => m + 1

/-- The inner loop of `BangumiDatabase.match_list` over one candidate title:
the first stored `(title_raw, rss_set)` pair whose `title_raw` is a substring
of the title. -/
def find_match (data : List (Str × Str)) (title : Str) : Option (Str × Str) :=
  data.find? fun p => pyInStr p.1 title

/-- The candidate loop of `BangumiDatabase.match_list`: for each title of the
snapshot of the dict's keys, find the first matching stored pair; on a match,
append the feed to that pair's joined string and persist when the feed is not
a substring of it, and pop the title from the dict. -/
def match_go (data : List (Str × Str)) (rss_link : Str) :
    List Str → List (Str × α) → Table → List (Str × α) × Table
  | [], dict, t => (dict, t)
  | title :: rest, dict, t =>
    match find_match data title with
    | none => match_go data rss_link rest dict t
    | some (title_raw, rss_set) =>
      let t' := if pyInStr rss_link rss_set then t
                else update_rss title_raw (rss_set ++ ',' :: rss_link) t
      match_go data rss_link rest (dict.eraseP fun p => p.1 == title) t'

/-- Embeds `BangumiDatabase.match_list`: fetches all `(title_raw, rss_link)` pairs
once, returns the dict unchanged when the table is empty, and otherwise runs
the candidate loop over a snapshot of the dict's keys. -/
def match_list (title_dict : List (Str × α)) (rss_link : Str) (t : Table) :
    List (Str × α) × Table :=
  let data := t.map fun r => (r.title_raw, r.rss_link)
  if data.isEmpty then (title_dict, t)
  else match_go data rss_link (title_dict.map Prod.fst) title_dict t

/-- Modelled from the spec: the connection layer (`module.database.connector`)
is not part of the analysed sources; per §4.1/§6 the relational store binds
only integer, real and text parameter values.  `not_exist_titles` passes the
*Python list* `rss_set` (the split feed set with the new feed appended) as the
`:rss_link` parameter of `update_rss`'s `UPDATE`, which the binding layer
rejects (`sqlite3.InterfaceError`), so the call fails and nothing is
persisted. -/
def update_rss_pylist ( _title_raw : Str) ( _rss_set : List Str) ( _t : Table) :
    Option Table :=
  none

/-- The inner `for title in titles` loop of `BangumiDatabase.not_exist_titles`
for one stored pair, with CPython iteration semantics: the loop index
advances each step even when `titles.remove(title)` shortens the list, so the
element sliding into the removed slot is skipped.  The loop runs while
`i < titles.length`; since each step raises `i` by one and never lengthens
`titles`, it performs at most `titles.length + 1 - i` steps, so the explicit
`fuel` argument (instantiated with `titles.length + 1` by the caller) only
makes this bound structural and its exhaustion branch is never reached. -/
def neInner (title_raw rss_link : Str) : Nat → Nat → List Str → List Str →
    Table → Option (List Str × List Str × Table)
  | 0, _, titles, rss_set, t => some (titles, rss_set, t)
  | fuel + 1, i, titles, rss_set, t =>
    if h : i < titles.length then
      let title := titles.get ⟨i, h⟩
      if rss_link ∈ rss_set then
        if pyInStr title_raw title then
          neInner title_raw rss_link fuel (i + 1) (pyRemove title titles) rss_set t
        else
          neInner title_raw rss_link fuel (i + 1) titles rss_set t
      else
        match update_rss_pylist title_raw (rss_set ++ [rss_link]) t with
        | none => none
        | some t' => neInner title_raw rss_link fuel (i + 1) titles (rss_set ++ [rss_link]) t'
    else
      some (titles, rss_set, t)

/-- The outer loop of `BangumiDatabase.not_exist_titles` over the snapshot of
stored `(title_raw, rss_link)` pairs; each pair's joined feed string is split
on commas before the title scan. -/
def ne_go (rss_link : Str) : List (Str × Str) → List Str → Table →
    Option (List Str × Table)
  | [], titles, t => some (titles, t)
  | (title_raw, rss_set) :: rest, titles, t =>
    match neInner title_raw rss_link (titles.length + 1) 0 titles (pySplit ',' rss_set) t with
    | none => none
    | some (titles', _, t') => ne_go rss_link rest titles' t'

/-- Embeds `BangumiDatabase.not_exist_titles`: fetches all `(title_raw, rss_link)`
pairs once, returns the titles unchanged when the table is empty, otherwise
runs the pair loop; `none` models the run aborting with an exception. -/
def not_exist_titles (titles : List Str) (rss_link : Str) (t : Table) :
    Option (List Str × Table) :=
  let data := t.map fun r => (r.title_raw, r.rss_link)
  if data.isEmpty then some (titles, t)
  else ne_go rss_link data titles t

/-- A value storable in a column: SQLite integer or text (booleans and
sequences are already collapsed by `data_to_db` before the schema code runs). -/
inductive DbVal where
  | i : Int → DbVal
  | s : Str → DbVal
deriving DecidableEq

/-- Embeds `BangumiDatabase.__python_to_sqlite_type`, applied (as in `update_table`)
to the already-encoded row values: integers map to `INTEGER NOT NULL`, text to
`TEXT NOT NULL`. -/
def python_to_sqlite_type : DbVal → Str
  | .i _ => "INTEGER NOT NULL".toList
  | .s _ => "TEXT NOT NULL".toList

/-- The encoded row as the ordered field-name/value dictionary that
`__data_to_db` produces (Python dicts preserve the record's field order). -/
def db_fields (r : DbRow) : List (Str × DbVal) :=
  [("id".toList, .i r.id),
   ("official_title".toList, .s r.official_title),
   ("title_raw".toList, .s r.title_raw),
   ("season".toList, .i r.season),
   ("year".toList, .i r.year),
   ("offset".toList, .i r.offset),
   ("added".toList, .i r.added),
   ("eps_collect".toList, .i r.eps_collect),
   ("filter".toList, .s r.filter),
   ("rss_link".toList, .s r.rss_link)]

/-- Modelled from the spec: `BangumiData()`'s default example record
(`module.models` is not in the analysed sources); the concrete default values
are immaterial to the schema claims, only their kinds matter. -/
def bangumi_default : BangumiData where
  id := 0
  official_title := []
  title_raw := []
  season := 1
  year := 0
  offset := 0
  added := false
  eps_collect := false
  filter := []
  rss_link := []

/-- Modelled from the spec: the backing store's schema state (§4.1, §6) —
the `bangumi` table's column list (name and declared type; `none` when the
table does not exist yet) and its rows, each an ordered column-name/value
dictionary. -/
structure DbState where
  cols : Option (List (Str × Str))
  rows : List (List (Str × DbVal))
deriving DecidableEq

/-- Embeds `CREATE TABLE IF NOT EXISTS bangumi (...)`: a no-op when the table
exists, otherwise creates it empty with the given columns. -/
def create_table_if_not_exists (cs : List (Str × Str)) (st : DbState) : DbState :=
  match st.cols with
  | some _ => st
  | none => { cols := some cs, rows := [] }

/-- Embeds `ALTER TABLE bangumi ADD COLUMN ... DEFAULT ...`: appends the column to
the schema and the default value to every existing row; stored values of the
already-present columns are untouched. -/
def add_column (cname ctype : Str) (d : DbVal) (st : DbState) : DbState where
  cols := st.cols.map fun cs => cs ++ [(cname, ctype)]
  rows := st.rows.map fun row => row ++ [(cname, d)]

/-- Embeds `BangumiDatabase.update_table`: encode the default record, `CREATE TABLE
IF NOT EXISTS`, read the existing column names once (`PRAGMA table_info`),
then add every missing field as a column with its inferred type and the
example value as default. -/
def update_table (st : DbState) : DbState :=
  let db_data := db_fields (data_to_db bangumi_default)
  let cs := db_data.map fun p => (p.1, python_to_sqlite_type p.2)
  let st1 := create_table_if_not_exists cs st
  let existing := (st1.cols.getD []).map Prod.fst
  db_data.foldl
    (fun s p =>
      if p.1 ∈ existing then s
      else add_column p.1 (python_to_sqlite_type p.2) p.2 s)
    st1

/-- The field names of the record type, in order. -/
def field_names : List Str :=
  (db_fields (data_to_db bangumi_default)).map Prod.fst

/-- A record whose `filter` sequence has an element with an embedded comma. -/
def r_comma : BangumiData where
  id := 1
  official_title := "Show A".toList
  title_raw := "Show A".toList
  season := 1
  year := 2020
  offset := 0
  added := false
  eps_collect := false
  filter := ["a,b".toList]
  rss_link := ["feedX".toList]

/-- A record with non-empty, comma-free sequence fields. -/
def r_clean : BangumiData :=
  { r_comma with filter := ["720".toList] }

/-- A record with an empty `rss_link` sequence. -/
def r_empty : BangumiData :=
  { r_clean with rss_link := [] }

/-- A stored row for the series `"Show A"` known via the feed `"feedX"`. -/
def rowA : DbRow where
  id := 1
  official_title := "Show A".toList
  title_raw := "Show A".toList
  season := 1
  year := 2020
  offset := 0
  added := 1
  eps_collect := 0
  filter := "720".toList
  rss_link := "feedX".toList

/-- One-row store: `("Show A", "feedX")`. -/
def tableA : Table := [rowA]

/-- One-row store whose feed string `"feedXY"` has `"feedX"` as a proper
substring of a different feed identifier. -/
def tableXY : Table := [{ rowA with rss_link := "feedXY".toList }]

/-- A store holding ids `{1, 2, 5}`. -/
def tEx3 : Table := [rowA, { rowA with id := 2 }, { rowA with id := 5 }]

/-- Two candidate titles, both containing the stored pattern `"Show A"`. -/
def dict2 : List (Str × Nat) :=
  [("Show A - 01".toList, 0), ("Show A - 02".toList, 1)]

/-- The same two candidate titles as a plain list. -/
def titles3 : List Str := ["Show A - 01".toList, "Show A - 02".toList]

/-- A pre-existing store state: a `bangumi` table from an older version that
only has the `id` column, holding one row. -/
def stW : DbState where
  cols := some [("id".toList, "INTEGER NOT NULL".toList)]
  rows := [[("id".toList, DbVal.i 7)]]

theorem pySplit_ne_nil (c : Char) (l : Str) : pySplit c l ≠ [] := by
  induction l with
  | nil => simp [pySplit]
  | cons a l ih =>
    simp only [pySplit]
    split
    · simp
    · cases h : pySplit c l with
      | nil => simp
      | cons y ys => simp [h]

theorem pySplit_of_not_mem {c : Char} {x : Str} (h : c ∉ x) :
    pySplit c x = [x] := by
  induction x with
  | nil => rfl
  | cons a l ih =>
    simp only [List.mem_cons, not_or] at h
    simp only [pySplit]
    rw [if_neg (by exact fun hac => h.1 hac.symm)]
    rw [ih h.2]

theorem pySplit_append_sep {c : Char} {x : Str} (r : Str) (h : c ∉ x) :
    pySplit c (x ++ c :: r) = x :: pySplit c r := by
  induction x with
  | nil => simp [pySplit]
  | cons a l ih =>
    simp only [List.mem_cons, not_or] at h
    simp only [List.cons_append, pySplit]
    rw [if_neg (by exact fun hac => h.1 hac.symm)]
    simp only [List.append_eq]
    rw [ih h.2]

/-- Splitting is a left inverse of joining for a non-empty family of
separator-free strings. -/
theorem pySplit_pyJoin {c : Char} :
    ∀ {xs : List Str}, xs ≠ [] → (∀ x ∈ xs, c ∉ x) →
      pySplit c (pyJoin c xs) = xs
  | [], h, _ => absurd rfl h
  | [x], _, hc => by
      simp only [pyJoin]
      exact pySplit_of_not_mem (hc x (by simp))
  | x :: y :: ys, _, hc => by
      simp only [pyJoin]
      rw [pySplit_append_sep _ (hc x (by simp))]
      rw [pySplit_pyJoin (by simp) (fun z hz => hc z (List.mem_cons_of_mem _ hz))]

theorem db_to_data_data_to_db (d : BangumiData)
    (hf : d.filter ≠ []) (hr : d.rss_link ≠ [])
    (hfc : ∀ x ∈ d.filter, ',' ∉ x) (hrc : ∀ x ∈ d.rss_link, ',' ∉ x) :
    db_to_data (data_to_db d) = d := by
  cases d with
  | mk i ot tr se ye off ad ep fi rs =>
    cases ad <;> cases ep <;>
      simp [db_to_data, data_to_db, pySplit_pyJoin hf hfc, pySplit_pyJoin hr hrc]

/-- C1 (counterexample): the round-trip contract fails on a record whose
sequence fields are non-empty but contain an embedded comma — encoding
`filter = ["a,b"]` joins to `"a,b"`, which decodes back to `["a", "b"]`. -/
theorem C1_counterexample : db_to_data (data_to_db r_comma) ≠ r_comma := by
  decide

/-- C1 (amended): for every record whose sequence fields `filter` and
`rss_link` are non-empty *and whose elements contain no comma*, decoding the
encoded row reproduces the record exactly: `decode(encode(r)) = r`. -/
theorem C1_roundtrip (d : BangumiData)
    (hf : d.filter ≠ []) (hr : d.rss_link ≠ [])
    (hfc : ∀ x ∈ d.filter, ',' ∉ x) (hrc : ∀ x ∈ d.rss_link, ',' ∉ x) :
    db_to_data (data_to_db d) = d :=
  db_to_data_data_to_db d hf hr hfc hrc

/-- C1 witness: the round trip at a concrete comma-free record. -/
theorem C1_roundtrip_witness :
    (r_clean.filter ≠ [] ∧ r_clean.rss_link ≠ [] ∧
      (∀ x ∈ r_clean.filter, ',' ∉ x) ∧ (∀ x ∈ r_clean.rss_link, ',' ∉ x)) ∧
    db_to_data (data_to_db r_clean) = r_clean :=
  ⟨⟨by decide, by decide, by decide, by decide⟩,
    C1_roundtrip r_clean (by decide) (by decide) (by decide) (by decide)⟩

/-- C9: encoding a record whose `rss_link` sequence is empty and decoding the
result yields the one-element sequence containing the empty string, not the
empty sequence: the comma-join of `[]` is `""`, which splits back to `[""]`. -/
theorem C9_empty_rss (d : BangumiData) (h : d.rss_link = []) :
    (db_to_data (data_to_db d)).rss_link = [([] : Str)] := by
  simp [db_to_data, data_to_db, h, pyJoin, pySplit]

/-- C9 witness: the boundary case at a concrete record with `rss_link = []`. -/
theorem C9_empty_rss_witness :
    r_empty.rss_link = [] ∧
    (db_to_data (data_to_db r_empty)).rss_link = [([] : Str)] :=
  ⟨rfl, C9_empty_rss r_empty rfl⟩

/-- C5: `update_rss(title_raw, rss_set)` sets `rss_link` to the given value
and resets `added` to `0` on every row whose `title_raw` equals the argument,
and leaves every other column of every row, and every row with a different
`title_raw`, unchanged (rows are compared positionally; the length is also
preserved). -/
theorem C5_update_rss_frame (tr s : Str) (t : Table) (i : Nat)
    (h1 : i < (update_rss tr s t).length) (h2 : i < t.length) :
    (update_rss tr s t).length = t.length ∧
    ((update_rss tr s t).get ⟨i, h1⟩).id = (t.get ⟨i, h2⟩).id ∧
    ((update_rss tr s t).get ⟨i, h1⟩).official_title = (t.get ⟨i, h2⟩).official_title ∧
    ((update_rss tr s t).get ⟨i, h1⟩).title_raw = (t.get ⟨i, h2⟩).title_raw ∧
    ((update_rss tr s t).get ⟨i, h1⟩).season = (t.get ⟨i, h2⟩).season ∧
    ((update_rss tr s t).get ⟨i, h1⟩).year = (t.get ⟨i, h2⟩).year ∧
    ((update_rss tr s t).get ⟨i, h1⟩).offset = (t.get ⟨i, h2⟩).offset ∧
    ((update_rss tr s t).get ⟨i, h1⟩).eps_collect = (t.get ⟨i, h2⟩).eps_collect ∧
    ((update_rss tr s t).get ⟨i, h1⟩).filter = (t.get ⟨i, h2⟩).filter ∧
    ((t.get ⟨i, h2⟩).title_raw = tr →
      ((update_rss tr s t).get ⟨i, h1⟩).rss_link = s ∧
      ((update_rss tr s t).get ⟨i, h1⟩).added = 0) ∧
    ((t.get ⟨i, h2⟩).title_raw ≠ tr →
      ((update_rss tr s t).get ⟨i, h1⟩).rss_link = (t.get ⟨i, h2⟩).rss_link ∧
      ((update_rss tr s t).get ⟨i, h1⟩).added = (t.get ⟨i, h2⟩).added) := by
  have hget : (update_rss tr s t)[i] =
      if t[i].title_raw = tr
      then { t[i] with rss_link := s, added := 0 }
      else t[i] := by
    simp [update_rss]
  refine ⟨by simp [update_rss], ?_⟩
  by_cases hc : t[i].title_raw = tr <;> simp [hget, hc]

/-- C5 witness: the frame conditions at a concrete table and row index. -/
theorem C5_update_rss_frame_witness :
    (0 < (update_rss ("Show A".toList) ("feedX,feedY".toList) tableA).length ∧
      0 < tableA.length) ∧
    (update_rss ("Show A".toList) ("feedX,feedY".toList) tableA).length =
      tableA.length :=
  ⟨⟨by decide, by decide⟩,
    (C5_update_rss_frame ("Show A".toList) ("feedX,feedY".toList) tableA 0
      (by decide) (by decide)).1⟩

theorem max_id_spec (t : Table) (h : t ≠ []) :
    ∃ m, max_id t = some m ∧ (∀ r ∈ t, r.id ≤ m) ∧ ∃ r ∈ t, r.id = m := by
  induction t with
  | nil => exact absurd rfl h
  | cons r rs ih =>
    cases rs with
    | nil => exact ⟨r.id, by simp [max_id], by simp, ⟨r, by simp⟩⟩
    | cons q qs =>
      obtain ⟨m, hm, hle, w, hw, hwid⟩ := ih (by simp)
      have hstep : max_id (r :: q :: qs) =
          match max_id (q :: qs) with
          | none => some r.id
          | some m' => some (max r.id m') := rfl
      refine ⟨max r.id m, by rw [hstep, hm], ?_, ?_⟩
      · intro x hx
        rcases List.mem_cons.mp hx with hx | hx
        · subst hx
          exact le_max_left _ _
        · exact le_trans (hle x hx) (le_max_right _ _)
      · by_cases hcmp : m ≤ r.id
        · exact ⟨r, by simp, (max_eq_left hcmp).symm⟩
        · refine ⟨w, by simp [hw], ?_⟩
          rw [hwid]
          exact (max_eq_right (le_of_not_le hcmp)).symm

/-- C7: `gen_id()` returns `1` on an empty table, and otherwise returns the
maximum stored id plus one (a stored id it dominates, plus one). -/
theorem C7_gen_id (t : Table) :
    (t = [] → gen_id t = 1) ∧
    (t ≠ [] → ∃ r ∈ t, gen_id t = r.id + 1 ∧ ∀ q ∈ t, q.id ≤ r.id) := by
  constructor
  · intro h
    subst h
    rfl
  · intro h
    obtain ⟨m, hm, hle, w, hw, hwid⟩ := max_id_spec t h
    refine ⟨w, hw, by simp [gen_id, hm, hwid], fun q hq => hwid ▸ hle q hq⟩

/-- C7 witness: on the store with ids `{1, 2, 5}` the generated id is `6`. -/
theorem C7_gen_id_witness :
    (tEx3 ≠ [] ∧ ∃ r ∈ tEx3, gen_id tEx3 = r.id + 1 ∧ ∀ q ∈ tEx3, q.id ≤ r.id) ∧
    gen_id tEx3 = 6 :=
  ⟨⟨by decide, (C7_gen_id tEx3).2 (by decide)⟩, by decide⟩

theorem update_find (d : BangumiData) (t : Table) (hex : ∃ r ∈ t, r.id = d.id) :
    ((update d t).1.find? fun r => decide (r.id = d.id)) = some (data_to_db d) := by
  induction t with
  | nil => simp at hex
  | cons a as ih =>
    by_cases ha : a.id = d.id
    · have hdb : a.id = (data_to_db d).id := ha
      simp only [update, List.map_cons, if_pos hdb]
      have hrow : ({ data_to_db d with id := a.id } : DbRow) = data_to_db d := by
        rw [hdb]
      rw [hrow]
      rw [List.find?_cons_of_pos _ (by simp [data_to_db])]
    · have hex' : ∃ r ∈ as, r.id = d.id := by
        obtain ⟨r, hr, hid⟩ := hex
        rcases List.mem_cons.mp hr with hra | hra
        · exact absurd (hra ▸ hid) ha
        · exact ⟨r, hra, hid⟩
      have hdb : ¬a.id = (data_to_db d).id := ha
      simp only [update, List.map_cons, if_neg hdb]
      rw [List.find?_cons_of_neg _ (by simp [ha])]
      simpa [update] using ih hex'

/-- C6: `update(record)` returns true iff exactly one row's id equals
`record.id` (false in particular when no row does); it never changes the `id`
column of any row; and after a true result, `search_id record.id` reflects
the new values (for a record whose sequence fields survive the codec). -/
theorem C6_update (d : BangumiData) (t : Table)
    (hf : d.filter ≠ []) (hr : d.rss_link ≠ [])
    (hfc : ∀ x ∈ d.filter, ',' ∉ x) (hrc : ∀ x ∈ d.rss_link, ',' ∉ x) :
    ((update d t).2 = true ↔ (t.filter fun r => decide (r.id = d.id)).length = 1) ∧
    ((∀ r ∈ t, r.id ≠ d.id) → (update d t).2 = false) ∧
    ((update d t).1.map (fun r => r.id) = t.map fun r => r.id) ∧
    ((update d t).2 = true → search_id d.id (update d t).1 = some d) := by
  have hcount : (update d t).2 = true ↔
      t.countP (fun r => decide (r.id = d.id)) = 1 := by
    simp [update, data_to_db]
  refine ⟨?_, ?_, ?_, ?_⟩
  · rw [hcount, List.countP_eq_length_filter]
  · intro hnone
    rw [Bool.eq_false_iff]
    intro htrue
    have h1 : t.countP (fun r => decide (r.id = d.id)) = 1 := hcount.mp htrue
    have h0 : t.countP (fun r => decide (r.id = d.id)) = 0 :=
      List.countP_eq_zero.mpr fun r hrr => by simp [hnone r hrr]
    omega
  · simp only [update, List.map_map]
    refine List.map_congr_left fun r _ => ?_
    by_cases hc : r.id = (data_to_db d).id <;> simp [hc]
  · intro htrue
    have h1 : t.countP (fun r => decide (r.id = d.id)) = 1 := hcount.mp htrue
    have hex : ∃ r ∈ t, r.id = d.id := by
      have hpos : 0 < t.countP (fun r => decide (r.id = d.id)) := by omega
      obtain ⟨r, hrr, hp⟩ := List.countP_pos_iff.mp hpos
      exact ⟨r, hrr, by simpa using hp⟩
    simp only [search_id]
    rw [update_find d t hex]
    simp [db_to_data_data_to_db d hf hr hfc hrc]

/-- C6 witness: updating a record with an existing unique id, then reading it
back. -/
theorem C6_update_witness :
    (r_clean.filter ≠ [] ∧ r_clean.rss_link ≠ [] ∧
      (∀ x ∈ r_clean.filter, ',' ∉ x) ∧ (∀ x ∈ r_clean.rss_link, ',' ∉ x)) ∧
    ((update r_clean tEx3).2 = true →
      search_id r_clean.id (update r_clean tEx3).1 = some r_clean) :=
  ⟨⟨by decide, by decide, by decide, by decide⟩,
    (C6_update r_clean tEx3 (by decide) (by decide) (by decide) (by decide)).2.2.2⟩

theorem eraseP_key_eq_filter {α : Type} (dict : List (Str × α)) (k : Str)
    (h : (dict.map Prod.fst).Nodup) :
    (dict.eraseP fun p => p.1 == k) = dict.filter fun p => !(p.1 == k) := by
  induction dict with
  | nil => rfl
  | cons p ps ih =>
    simp only [List.map_cons, List.nodup_cons] at h
    by_cases hk : p.1 = k
    · rw [show List.eraseP (fun q => q.1 == k) (p :: ps) = ps from
        List.eraseP_cons_of_pos (by simp [hk])]
      rw [show List.filter (fun q => !(q.1 == k)) (p :: ps) =
          List.filter (fun q => !(q.1 == k)) ps from
        List.filter_cons_of_neg (by simp [hk])]
      symm
      refine List.filter_eq_self.mpr fun q hq => ?_
      have hqk : q.1 ≠ k := by
        intro hqe
        exact h.1 (hk ▸ hqe ▸ List.mem_map_of_mem Prod.fst hq)
      simp [hqk]
    · rw [show List.eraseP (fun q => q.1 == k) (p :: ps) =
          p :: List.eraseP (fun q => q.1 == k) ps from
        List.eraseP_cons_of_neg (by simp [hk])]
      rw [show List.filter (fun q => !(q.1 == k)) (p :: ps) =
          p :: List.filter (fun q => !(q.1 == k)) ps from
        List.filter_cons_of_pos (by simp [hk])]
      rw [ih h.2]

theorem find_match_isSome (data : List (Str × Str)) (k : Str) :
    (find_match data k).isSome = data.any fun q => pyInStr q.1 k := by
  induction data with
  | nil => rfl
  | cons q qs ih =>
    simp only [find_match] at ih ⊢
    by_cases hq : pyInStr q.1 k
    · rw [show List.find? (fun p => pyInStr p.1 k) (q :: qs) = some q from
        List.find?_cons_of_pos qs hq]
      simp [hq]
    · rw [show List.find? (fun p => pyInStr p.1 k) (q :: qs) =
          List.find? (fun p => pyInStr p.1 k) qs from
        List.find?_cons_of_neg qs hq]
      rw [ih]
      simp [show pyInStr q.1 k = false from by simpa using hq]

theorem any_pair_title (rs : List DbRow) (x : Str) :
    ((rs.map fun r => (r.title_raw, r.rss_link)).any fun q => pyInStr q.1 x)
      = (rs.map fun r => r.title_raw).any fun tr => pyInStr tr x := by
  induction rs with
  | nil => rfl
  | cons a l ih => simp [List.any_cons, ih]

theorem match_go_fst {α : Type} (data : List (Str × Str)) (rss : Str)
    (keys : List Str) :
    ∀ (dict : List (Str × α)) (t : Table), (dict.map Prod.fst).Nodup →
      (match_go data rss keys dict t).1 =
        dict.filter fun p => !(decide (p.1 ∈ keys) && (find_match data p.1).isSome) := by
  induction keys with
  | nil =>
    intro dict t _
    simp [match_go]
  | cons k rest ih =>
    intro dict t hnd
    cases hmk : find_match data k with
    | none =>
      simp only [match_go, hmk]
      rw [ih dict t hnd]
      refine List.filter_congr fun p hp => ?_
      by_cases hpk : p.1 = k
      · simp [hpk, hmk]
      · simp [hpk]
    | some pr =>
      obtain ⟨tr, rs⟩ := pr
      simp only [match_go, hmk]
      have hnd' : (((dict.eraseP fun p => p.1 == k).map Prod.fst)).Nodup :=
        hnd.sublist ((List.eraseP_sublist dict).map Prod.fst)
      rw [ih _ _ hnd']
      rw [eraseP_key_eq_filter dict k hnd]
      rw [List.filter_filter]
      refine List.filter_congr fun p hp => ?_
      by_cases hpk : p.1 = k
      · simp [hpk, hmk]
      · simp [hpk]

theorem match_go_table {α : Type} (data : List (Str × Str)) (rss : Str)
    (keys : List Str) :
    ∀ (dict : List (Str × α)) (t0 t : Table),
      t.length = t0.length →
      (∀ i (hi : i < t.length) (hi0 : i < t0.length),
        t[i] = t0[i] ∨
          ∃ p ∈ data, p.1 = t0[i].title_raw ∧ pyInStr rss p.2 = false ∧
            t[i] = { t0[i] with rss_link := p.2 ++ ',' :: rss, added := 0 }) →
      (match_go data rss keys dict t).2.length = t0.length ∧
      ∀ i (hi : i < (match_go data rss keys dict t).2.length) (hi0 : i < t0.length),
        (match_go data rss keys dict t).2[i] = t0[i] ∨
          ∃ p ∈ data, p.1 = t0[i].title_raw ∧ pyInStr rss p.2 = false ∧
            (match_go data rss keys dict t).2[i] =
              { t0[i] with rss_link := p.2 ++ ',' :: rss, added := 0 } := by
  induction keys with
  | nil =>
    intro dict t0 t hlen hinv
    exact ⟨hlen, hinv⟩
  | cons k rest ih =>
    intro dict t0 t hlen hinv
    cases hmk : find_match data k with
    | none =>
      simp only [match_go, hmk]
      exact ih _ t0 t hlen hinv
    | some pr =>
      obtain ⟨tr, rs⟩ := pr
      simp only [match_go, hmk]
      by_cases hpy : pyInStr rss rs = true
      · have hif : (if pyInStr rss rs = true then t
            else update_rss tr (rs ++ ',' :: rss) t) = t := if_pos hpy
        simp only [hif]
        exact ih _ t0 t hlen hinv
      · have hif : (if pyInStr rss rs = true then t
            else update_rss tr (rs ++ ',' :: rss) t)
            = update_rss tr (rs ++ ',' :: rss) t := if_neg hpy
        simp only [hif]
        have hpmem : (tr, rs) ∈ data := List.mem_of_find?_eq_some hmk
        refine ih _ t0 _ ?_ ?_
        · simpa [update_rss] using hlen
        · intro i hi hi0
          have hi' : i < t.length := by simpa [update_rss] using hi
          have hget : (update_rss tr (rs ++ ',' :: rss) t)[i] =
              if t[i].title_raw = tr
              then { t[i] with rss_link := rs ++ ',' :: rss, added := 0 }
              else t[i] := by
            simp [update_rss]
          by_cases hc : t[i].title_raw = tr
          · rw [hget, if_pos hc]
            rcases hinv i hi' hi0 with hA | ⟨p, hpd, hp1, hp2, hB⟩
            · right
              refine ⟨(tr, rs), hpmem, ?_, by simpa using hpy, ?_⟩
              · rw [← hc, hA]
              · rw [hA]
            · right
              refine ⟨(tr, rs), hpmem, ?_, by simpa using hpy, ?_⟩
              · rw [← hc, hB]
              · rw [hB]
          · rw [hget, if_neg hc]
            exact hinv i hi' hi0

/-- C2 (amended): in `match_list`, each candidate title is scanned over the
stored pairs and the *first* stored `title_raw` that is a substring of the
candidate claims it (the break stops scanning stored pairs for that
candidate, not candidates for that pair); a stored pattern may claim any
number of candidates, and the returned mapping is exactly the candidates
whose title contains no stored `title_raw`.  Any row the call rewrites gets
the feed appended to a matching stored pair's feed string with `added` reset
to `0`, and only rows whose `title_raw` equals a stored pair's pattern with
the feed not substring-present in that pair's feed string are rewritten. -/
theorem C2_match_list {α : Type} (dict : List (Str × α)) (rss : Str) (t : Table)
    (hnd : (dict.map Prod.fst).Nodup) :
    ((match_list dict rss t).1 =
      dict.filter fun p => !((t.map fun r => r.title_raw).any fun tr => pyInStr tr p.1)) ∧
    (match_list dict rss t).2.length = t.length ∧
    ∀ i (hi : i < (match_list dict rss t).2.length) (hi0 : i < t.length),
      (match_list dict rss t).2[i] = t[i] ∨
        ∃ p ∈ t.map fun r => (r.title_raw, r.rss_link), p.1 = t[i].title_raw ∧
          pyInStr rss p.2 = false ∧
          (match_list dict rss t).2[i] =
            { t[i] with rss_link := p.2 ++ ',' :: rss, added := 0 } := by
  cases t with
  | nil =>
    refine ⟨by simp [match_list], by simp [match_list], ?_⟩
    intro i hi hi0
    exact absurd hi0 (by simp)
  | cons r rs =>
    have hne : ¬((r :: rs : Table).map fun q => (q.title_raw, q.rss_link)).isEmpty := by
      simp
    constructor
    · rw [match_list, if_neg hne]
      rw [match_go_fst _ _ _ dict _ hnd]
      refine List.filter_congr fun p hp => ?_
      have hmem : p.1 ∈ dict.map Prod.fst := List.mem_map_of_mem _ hp
      simp [hmem, find_match_isSome, any_pair_title]
    · rw [match_list, if_neg hne]
      exact match_go_table _ rss _ dict (r :: rs) (r :: rs) rfl
        fun i hi hi0 => Or.inl rfl

/-- C2 witness: on the one-pattern store and two matching candidates the
returned mapping is the candidates matched by no stored pattern. -/
theorem C2_match_list_witness :
    (dict2.map Prod.fst).Nodup ∧
    (match_list dict2 ("feedX".toList) tableA).1 =
      dict2.filter fun p =>
        !((tableA.map fun r => r.title_raw).any fun tr => pyInStr tr p.1) :=
  ⟨by decide, (C2_match_list dict2 ("feedX".toList) tableA (by decide)).1⟩

/-- C2 counterexample: with the single stored pattern `"Show A"` and two
candidates both containing it, one call removes *both* candidates — a stored
`title_raw` pattern claims more than one candidate per call, refuting the
claim's "at most one". -/
theorem C2_counterexample :
    match_list dict2 ("feedX".toList) tableA = ([], tableA) ∧
    tableA.length = 1 ∧
    pyInStr (rowA.title_raw) ("Show A - 01".toList) = true ∧
    pyInStr (rowA.title_raw) ("Show A - 02".toList) = true := by
  refine ⟨by decide, by decide, by decide, by decide⟩

/-- C10: `match_list` tests feed membership by substring containment on the
joined feed string, not membership among the split identifiers: with stored
feed string `"feedXY"` and feed id `"feedX"`, a candidate matched by the
stored `title_raw` is removed while the table is not modified (no append, no
persist), even though `"feedX"` is not one of the split feed identifiers. -/
theorem C10_substring_feed_check :
    match_list [(("Show A - 01").toList, (0 : Nat))] ("feedX".toList) tableXY
      = ([], tableXY) ∧
    pyInStr ("feedX".toList) ("feedXY".toList) = true ∧
    ("feedX".toList) ∉ pySplit ',' ("feedXY".toList) ∧
    pyInStr ("Show A".toList) ("Show A - 01".toList) = true := by
  refine ⟨by decide, by decide, by decide, by decide⟩

theorem pyRemove_sublist (x : Str) (l : List Str) : (pyRemove x l).Sublist l := by
  induction l with
  | nil => exact List.Sublist.refl _
  | cons y ys ih =>
    simp only [pyRemove]
    split
    · exact List.sublist_cons_self _ _
    · exact List.Sublist.cons₂ _ ih

theorem pyRemove_mem_of_ne {x y : Str} (h : y ≠ x) :
    ∀ {l : List Str}, y ∈ l → y ∈ pyRemove x l := by
  intro l hm
  induction l with
  | nil => cases hm
  | cons z zs ih =>
    simp only [pyRemove]
    rcases List.mem_cons.mp hm with hz | hz
    · subst hz
      rw [if_neg h]
      exact List.mem_cons_self _ _
    · split
      · exact hz
      · exact List.mem_cons_of_mem _ (ih hz)

theorem neInner_present (tr rl : Str) (rs : List Str) (hin : rl ∈ rs) :
    ∀ (fuel i : Nat) (titles : List Str) (t : Table),
      ∃ titles', neInner tr rl fuel i titles rs t = some (titles', rs, t) ∧
        titles'.Sublist titles ∧
        ∀ x ∈ titles, pyInStr tr x = false → x ∈ titles' := by
  intro fuel
  induction fuel with
  | zero =>
    intro i titles t
    exact ⟨titles, rfl, List.Sublist.refl _, fun x hx _ => hx⟩
  | succ fuel ih =>
    intro i titles t
    simp only [neInner]
    by_cases h : i < titles.length
    · rw [dif_pos h, if_pos hin]
      by_cases hm : pyInStr tr (titles.get ⟨i, h⟩) = true
      · rw [if_pos hm]
        obtain ⟨titles', heq, hsub, hret⟩ :=
          ih (i + 1) (pyRemove (titles.get ⟨i, h⟩) titles) t
        refine ⟨titles', heq, hsub.trans (pyRemove_sublist _ _), ?_⟩
        intro x hx hxf
        have hxne : x ≠ titles.get ⟨i, h⟩ := by
          intro he
          rw [he, hm] at hxf
          cases hxf
        exact hret x (pyRemove_mem_of_ne hxne hx) hxf
      · rw [if_neg hm]
        exact ih (i + 1) titles t
    · rw [dif_neg h]
      exact ⟨titles, rfl, List.Sublist.refl _, fun x hx _ => hx⟩

theorem ne_go_spec (rl : Str) :
    ∀ (data : List (Str × Str)) (titles : List Str) (t : Table),
      (∀ p ∈ data, rl ∈ pySplit ',' p.2) →
      ∃ titles', ne_go rl data titles t = some (titles', t) ∧
        titles'.Sublist titles ∧
        ∀ x ∈ titles, (∀ p ∈ data, pyInStr p.1 x = false) → x ∈ titles' := by
  intro data
  induction data with
  | nil =>
    intro titles t _
    exact ⟨titles, rfl, List.Sublist.refl _, fun x hx _ => hx⟩
  | cons pr rest ih =>
    obtain ⟨tr, rs⟩ := pr
    intro titles t hall
    have hin : rl ∈ pySplit ',' rs := hall (tr, rs) (by simp)
    obtain ⟨t1, heq1, hsub1, hret1⟩ :=
      neInner_present tr rl _ hin (titles.length + 1) 0 titles t
    simp only [ne_go, heq1]
    obtain ⟨t2, heq2, hsub2, hret2⟩ := ih t1 t fun p hp => hall p (by simp [hp])
    refine ⟨t2, heq2, hsub2.trans hsub1, fun x hx hxf => ?_⟩
    exact hret2 x (hret1 x hx (hxf (tr, rs) (by simp)))
      fun p hp => hxf p (by simp [hp])

/-- C3 (amended): in `not_exist_titles`, when every stored pair's parsed feed
set already contains `feed_id`, the call succeeds without touching the table
and removes only titles that contain some stored `title_raw`; every title
containing no stored `title_raw` is retained.  Because `titles.remove` is
called while iterating over `titles`, the element sliding into a removed slot
is skipped, so *not* every matching title is removed (see the
counterexample); the result is a sublist of the input. -/
theorem C3_not_exist_titles (titles : List Str) (rl : Str) (t : Table)
    (hall : ∀ r ∈ t, rl ∈ pySplit ',' r.rss_link) :
    ∃ titles', not_exist_titles titles rl t = some (titles', t) ∧
      titles'.Sublist titles ∧
      ∀ x ∈ titles, (∀ r ∈ t, pyInStr r.title_raw x = false) → x ∈ titles' := by
  cases t with
  | nil => exact ⟨titles, rfl, List.Sublist.refl _, fun x hx _ => hx⟩
  | cons r rs =>
    have hne : ¬(((r :: rs : Table)).map fun q => (q.title_raw, q.rss_link)).isEmpty = true := by
      simp
    rw [not_exist_titles]
    rw [if_neg hne]
    obtain ⟨titles', heq, hsub, hret⟩ :=
      ne_go_spec rl (((r :: rs : Table)).map fun q => (q.title_raw, q.rss_link)) titles
        (r :: rs)
        (by
          intro p hp
          obtain ⟨q, hq, hpq⟩ := List.mem_map.mp hp
          subst hpq
          exact hall q hq)
    refine ⟨titles', heq, hsub, fun x hx hxf => hret x hx ?_⟩
    intro p hp
    obtain ⟨q, hq, hpq⟩ := List.mem_map.mp hp
    subst hpq
    exact hxf q hq

/-- C3 counterexample: with the stored pair `("Show A", "feedX")` and the two
matching titles `["Show A - 01", "Show A - 02"]`, the call removes only the
first one — removing while iterating skips the next element — refuting "every
title containing the stored `title_raw` is removed". -/
theorem C3_counterexample :
    not_exist_titles titles3 ("feedX".toList) tableA
      = some ([("Show A - 02").toList], tableA) ∧
    pyInStr (rowA.title_raw) ("Show A - 02".toList) = true ∧
    ("feedX".toList) ∈ pySplit ',' rowA.rss_link := by
  refine ⟨by decide, by decide, by decide⟩

/-- C3 witness: the claim's own example — store `("Show A", "feedX")`,
`not_exist_titles(["Show A - 01"], "feedX")` returns `[]`. -/
theorem C3_not_exist_titles_witness :
    ((∀ r ∈ tableA, ("feedX".toList) ∈ pySplit ',' r.rss_link) ∧
      ∃ titles', not_exist_titles [("Show A - 01").toList] ("feedX".toList) tableA
          = some (titles', tableA) ∧
        titles'.Sublist [("Show A - 01").toList] ∧
        ∀ x ∈ [("Show A - 01").toList],
          (∀ r ∈ tableA, pyInStr r.title_raw x = false) → x ∈ titles') ∧
    not_exist_titles [("Show A - 01").toList] ("feedX".toList) tableA
      = some ([], tableA) :=
  ⟨⟨by decide, C3_not_exist_titles [("Show A - 01").toList] ("feedX".toList) tableA
      (by decide)⟩,
    by decide⟩

/-- C4: on a store whose only pair is `("Show A", "feedX")`, calling
`not_exist_titles(["Unrelated"], "feedY")` does not return `["Unrelated"]`
with the feed set persisted as `"feedX,feedY"`: the code appends `"feedY"` to
the *split Python list* and passes that list as the SQL parameter of
`update_rss`, which the parameter binding rejects, so the call aborts with an
exception (modelled as `none`) and nothing is persisted. -/
theorem C4_code_bug :
    not_exist_titles [("Unrelated").toList] ("feedY".toList) tableA = none := by
  decide

theorem create_some (st : DbState) (ex : List (Str × Str)) (cs : List (Str × Str))
    (hcols : st.cols = some ex) : create_table_if_not_exists cs st = st := by
  unfold create_table_if_not_exists
  rw [hcols]

theorem create_none (st : DbState) (cs : List (Str × Str))
    (hcols : st.cols = none) :
    create_table_if_not_exists cs st = { cols := some cs, rows := [] } := by
  unfold create_table_if_not_exists
  rw [hcols]

theorem update_table_eq_none (st : DbState) (hcols : st.cols = none) :
    update_table st = update_table { cols := none, rows := [] } := by
  simp only [update_table]
  rw [create_none st _ hcols]
  rfl

theorem update_table_eq_some (st : DbState) (ex : List (Str × Str))
    (hcols : st.cols = some ex) :
    update_table st =
      (db_fields (data_to_db bangumi_default)).foldl
        (fun s p => if p.1 ∈ ex.map Prod.fst then s
          else add_column p.1 (python_to_sqlite_type p.2) p.2 s) st := by
  simp only [update_table]
  rw [create_some st ex _ hcols, hcols]
  rfl

theorem fold_cols (existing : List Str) (fields : List (Str × DbVal)) :
    ∀ (s0 : DbState) (cs0 : List (Str × Str)), s0.cols = some cs0 →
      (fields.foldl
        (fun s p => if p.1 ∈ existing then s
          else add_column p.1 (python_to_sqlite_type p.2) p.2 s) s0).cols
        = some (cs0 ++
            (fields.filter fun p => !(decide (p.1 ∈ existing))).map
              fun p => (p.1, python_to_sqlite_type p.2)) := by
  induction fields with
  | nil =>
    intro s0 cs0 h
    simp [h]
  | cons p rest ih =>
    intro s0 cs0 h
    by_cases hp : p.1 ∈ existing
    · rw [List.foldl_cons, if_pos hp, ih s0 cs0 h]
      rw [show List.filter (fun q => !(decide (q.1 ∈ existing))) (p :: rest) =
          List.filter (fun q => !(decide (q.1 ∈ existing))) rest from
        List.filter_cons_of_neg (by simp [hp])]
    · rw [List.foldl_cons, if_neg hp]
      rw [ih _ (cs0 ++ [(p.1, python_to_sqlite_type p.2)]) (by simp [add_column, h])]
      rw [show List.filter (fun q => !(decide (q.1 ∈ existing))) (p :: rest) =
          p :: List.filter (fun q => !(decide (q.1 ∈ existing))) rest from
        List.filter_cons_of_pos (by simp [hp])]
      simp

theorem fold_rows (existing : List Str) (fields : List (Str × DbVal)) :
    ∀ (s0 : DbState), ∃ extra,
      (fields.foldl
        (fun s p => if p.1 ∈ existing then s
          else add_column p.1 (python_to_sqlite_type p.2) p.2 s) s0).rows
        = s0.rows.map fun row => row ++ extra := by
  induction fields with
  | nil =>
    intro s0
    refine ⟨[], ?_⟩
    simp
  | cons p rest ih =>
    intro s0
    by_cases hp : p.1 ∈ existing
    · rw [List.foldl_cons, if_pos hp]
      exact ih s0
    · rw [List.foldl_cons, if_neg hp]
      obtain ⟨extra, hex⟩ := ih (add_column p.1 (python_to_sqlite_type p.2) p.2 s0)
      refine ⟨(p.1, p.2) :: extra, ?_⟩
      rw [hex]
      simp only [add_column, List.map_map]
      refine List.map_congr_left fun row _ => ?_
      simp

theorem fold_noop (existing : List Str) (fields : List (Str × DbVal))
    (h : ∀ p ∈ fields, p.1 ∈ existing) :
    ∀ (s0 : DbState),
      fields.foldl
        (fun s p => if p.1 ∈ existing then s
          else add_column p.1 (python_to_sqlite_type p.2) p.2 s) s0 = s0 := by
  induction fields with
  | nil =>
    intro s0
    rfl
  | cons p rest ih =>
    intro s0
    rw [List.foldl_cons, if_pos (h p (by simp))]
    exact ih (fun q hq => h q (by simp [hq])) s0

theorem update_table_idem_of (st' : DbState) (csAll : List (Str × Str))
    (h1 : st'.cols = some csAll)
    (h2 : ∀ p ∈ db_fields (data_to_db bangumi_default), p.1 ∈ csAll.map Prod.fst) :
    update_table st' = st' := by
  rw [update_table_eq_some st' csAll h1]
  exact fold_noop _ _ h2 st'

/-- C8: `update_table` is idempotent and safe to call on every startup: after
one call the table exists with a duplicate-free column list containing one
column per field of the record type, values stored in already-present columns
are unchanged (each old row is a prefix of the corresponding new row, new
cells only appended), and a second call changes nothing. -/
theorem C8_update_table (st : DbState)
    (hwf : st.cols = none → st.rows = [])
    (hnd : ((st.cols.getD []).map Prod.fst).Nodup) :
    (∃ cs, (update_table st).cols = some cs ∧ (cs.map Prod.fst).Nodup ∧
      ∀ f ∈ field_names, f ∈ cs.map Prod.fst) ∧
    (update_table st).rows.length = st.rows.length ∧
    (∀ i (h1 : i < (update_table st).rows.length) (h2 : i < st.rows.length),
      ∃ extra, (update_table st).rows[i] = st.rows[i] ++ extra) ∧
    update_table (update_table st) = update_table st := by
  cases hcols : st.cols with
  | none =>
    have hrows : st.rows = [] := hwf hcols
    have heq : update_table st = update_table { cols := none, rows := [] } :=
      update_table_eq_none st hcols
    refine ⟨?_, ?_, ?_, ?_⟩
    · rw [heq]
      exact ⟨_, rfl, by decide, by decide⟩
    · rw [heq, hrows]
      decide
    · intro i h1 h2
      rw [hrows] at h2
      exact absurd h2 (by simp)
    · rw [heq]
      decide
  | some ex =>
    have hnd' : (ex.map Prod.fst).Nodup := by
      rw [hcols] at hnd
      simpa using hnd
    have heq := update_table_eq_some st ex hcols
    have hcols' : (update_table st).cols = some (ex ++
        ((db_fields (data_to_db bangumi_default)).filter
          fun p => !(decide (p.1 ∈ ex.map Prod.fst))).map
            fun p => (p.1, python_to_sqlite_type p.2)) := by
      rw [heq]
      exact fold_cols (ex.map Prod.fst) _ st ex hcols
    have hfn : field_names.Nodup := by decide
    have hmn : ((((db_fields (data_to_db bangumi_default)).filter
          fun p => !(decide (p.1 ∈ ex.map Prod.fst))).map
            fun p => (p.1, python_to_sqlite_type p.2)).map Prod.fst)
        = ((db_fields (data_to_db bangumi_default)).filter
            fun p => !(decide (p.1 ∈ ex.map Prod.fst))).map Prod.fst := by
      rw [List.map_map]
      rfl
    have hmiss_nd : (((db_fields (data_to_db bangumi_default)).filter
        fun p => !(decide (p.1 ∈ ex.map Prod.fst))).map Prod.fst).Nodup :=
      hfn.sublist ((List.filter_sublist _).map Prod.fst)
    have hdisj : ∀ f ∈ ex.map Prod.fst,
        f ∉ ((db_fields (data_to_db bangumi_default)).filter
          fun p => !(decide (p.1 ∈ ex.map Prod.fst))).map Prod.fst := by
      intro f hfe hcontra
      obtain ⟨p, hp, hpf⟩ := List.mem_map.mp hcontra
      have hmem := List.mem_filter.mp hp
      rw [hpf] at hmem
      simp [hfe] at hmem
    have hfinal_nd : (((ex ++
        ((db_fields (data_to_db bangumi_default)).filter
          fun p => !(decide (p.1 ∈ ex.map Prod.fst))).map
            fun p => (p.1, python_to_sqlite_type p.2))).map Prod.fst).Nodup := by
      rw [List.map_append, hmn, List.nodup_append]
      exact ⟨hnd', hmiss_nd, fun f hfe => hdisj f hfe⟩
    have hfinal_mem : ∀ f ∈ field_names,
        f ∈ ((ex ++
          ((db_fields (data_to_db bangumi_default)).filter
            fun p => !(decide (p.1 ∈ ex.map Prod.fst))).map
              fun p => (p.1, python_to_sqlite_type p.2))).map Prod.fst := by
      intro f hf
      rw [List.map_append, hmn, List.mem_append]
      by_cases hfe : f ∈ ex.map Prod.fst
      · exact Or.inl hfe
      · right
        obtain ⟨p, hp, hpf⟩ := List.mem_map.mp hf
        have hpfilter : p ∈ (db_fields (data_to_db bangumi_default)).filter
            fun p => !(decide (p.1 ∈ ex.map Prod.fst)) :=
          List.mem_filter.mpr ⟨hp, by simp [hpf, hfe]⟩
        have hmem2 := List.mem_map_of_mem Prod.fst hpfilter
        rw [hpf] at hmem2
        exact hmem2
    refine ⟨⟨_, hcols', hfinal_nd, hfinal_mem⟩, ?_, ?_, ?_⟩
    · obtain ⟨extra, hex⟩ := fold_rows (ex.map Prod.fst)
        (db_fields (data_to_db bangumi_default)) st
      rw [heq, hex]
      simp
    · intro i h1 h2
      obtain ⟨extra, hex⟩ := fold_rows (ex.map Prod.fst)
        (db_fields (data_to_db bangumi_default)) st
      have hrows_eq : (update_table st).rows = st.rows.map fun row => row ++ extra := by
        rw [heq]
        exact hex
      refine ⟨extra, ?_⟩
      simp [hrows_eq]
    · exact update_table_idem_of _ _ hcols' fun p hp =>
        hfinal_mem p.1 (List.mem_map_of_mem Prod.fst hp)

/-- C8 witness: running the schema synchronizer twice on a pre-existing
one-column table changes nothing the second time. -/
theorem C8_update_table_witness :
    ((stW.cols = none → stW.rows = []) ∧
      ((stW.cols.getD []).map Prod.fst).Nodup) ∧
    update_table (update_table stW) = update_table stW :=
  ⟨⟨by decide, by decide⟩, (C8_update_table stW (by decide) (by decide)).2.2.2⟩

end AutoBangumi
